import Mathlib

/-!
Verification of the PersonalFinanceTrackingSystem core text-heuristics
(`src/pf/classify.py` and `src/pf/parsers/generic.py`) against its
natural-language specification.  Python text is modelled as `List Char`
(ASCII range; the cue phrases, patterns and institution names in the source
are all ASCII), Python `float` money values as `ℚ` (all observed operations
on them — parsing a two-decimal literal, negation, absolute value, sign
tests and the 0/1-valued confidence ratio — are exact, so the rational
semantics agrees with IEEE doubles on every property stated here), and
`datetime.date` as a year/month/day record validated on construction.
-/

namespace PF

/-- Python `str.lower()` restricted to ASCII (`Char.toLower` maps A–Z to a–z
and leaves everything else unchanged, as CPython does on ASCII input). -/
def pyLower (s : List Char) : List Char := s.map Char.toLower

/-- CPython whitespace — the exact character set `str.isspace()`,
`str.strip()` and the regex class `\s` (on str patterns) agree on: the
ASCII whitespace, the C0 separator controls 1C-1F, NEL, NBSP, and the
Unicode space characters. -/
def pyIsSpace (c : Char) : Bool :=
  c == ' ' || c == '\t' || c == '\n' || c == '\r' || c == '\x0c' || c == '\x0b' ||
  (decide (0x1c ≤ c.toNat) && decide (c.toNat ≤ 0x1f)) ||
  c.toNat == 0x85 || c.toNat == 0xa0 || c.toNat == 0x1680 ||
  (decide (0x2000 ≤ c.toNat) && decide (c.toNat ≤ 0x200a)) ||
  c.toNat == 0x2028 || c.toNat == 0x2029 || c.toNat == 0x202f ||
  c.toNat == 0x205f || c.toNat == 0x3000

/-- Python `str.strip()`: drop ASCII whitespace at both ends. -/
def pyStrip (s : List Char) : List Char :=
  ((s.dropWhile pyIsSpace).reverse.dropWhile pyIsSpace).reverse

/-- Python's substring test `needle in hay`. -/
def containsSub (needle : List Char) : List Char → Bool
  | [] => needle.isEmpty
  | c :: rest => needle.isPrefixOf (c :: rest) || containsSub needle rest

/-! ### classify.py — `classify_statement` -/

/-- Cue list for the `"mortgage"` score (classify.py line 31). -/
def mortgage_cues : List (List Char) :=
  ["escrow".toList, "principal".toList, "interest".toList, "mortgage".toList,
   "loan number".toList]

/-- Cue list for the `"credit_card"` score (classify.py line 32). -/
def cc_cues : List (List Char) :=
  ["minimum payment".toList, "payment due date".toList, "new balance".toList,
   "credit card".toList]

/-- Cue list for the `"brokerage"` score (classify.py line 33). -/
def brkg_cues : List (List Char) :=
  ["positions".toList, "dividends".toList, "trade date".toList, "gain".toList,
   "brokerage".toList]

/-- Cue list for the `"bank"` score (classify.py line 34). -/
def bank_cues : List (List Char) :=
  ["checking".toList, "savings".toList, "withdrawal".toList, "deposit".toList,
   "account summary".toList]

/-- The per-type score accumulation of classify.py lines 36–43: one point per
cue phrase occurring in the lowered text. -/
def cueScore (cues : List (List Char)) (t : List Char) : Nat :=
  cues.foldl (fun acc cue => acc + (if containsSub cue t then 1 else 0)) 0

/-- Python `max(scores, key=scores.get)` over an insertion-ordered dict:
fold keeping the first entry whose value no later entry strictly exceeds. -/
def pyDictMax (first : String × Nat) (rest : List (String × Nat)) : String × Nat :=
  rest.foldl (fun best kv => if kv.2 > best.2 then kv else best) first

/-- The divisor of the confidence ratio in classify.py line 47:
`max(1, max(scores.values(), default=1))`. -/
def classifyDivisor (sm sc sb sk : Nat) : Nat :=
  Nat.max 1 (Nat.max sm (Nat.max sc (Nat.max sb sk)))

/-- classify.py `classify_statement`: lowercase the text, score the four
types by cue hits, pick the dict-order first maximum, and return it with
confidence `scores[best] / max(1, max(scores))`, or `0.0` when the total
score is zero. -/
def classify_statement (text : List Char) : String × ℚ :=
  let t := pyLower text
  let sm := cueScore mortgage_cues t
  let sc := cueScore cc_cues t
  let sb := cueScore brkg_cues t
  let sk := cueScore bank_cues t
  let best := pyDictMax ("mortgage", sm) [("credit_card", sc), ("brokerage", sb), ("bank", sk)]
  let total := sm + sc + sb + sk
  let confidence : ℚ :=
    if total = 0 then 0 else (best.2 : ℚ) / (classifyDivisor sm sc sb sk : ℚ)
  (best.1, confidence)

/-- The union of the four cue lists. -/
def allCues : List (List Char) := mortgage_cues ++ cc_cues ++ brkg_cues ++ bank_cues

/-- No cue phrase of any statement type occurs in the lowered text. -/
def cueFree (text : List Char) : Bool :=
  allCues.all (fun cue => !containsSub cue (pyLower text))

theorem natMax_ite (a b : Nat) : Nat.max a b = if a ≤ b then b else a := by
  rcases Nat.le_total a b with h | h
  · simp [Nat.max_eq_right h, h]
  · rcases Nat.lt_or_ge b a with h2 | h2
    · simp [Nat.max_eq_left h, Nat.not_le.mpr h2]
    · have hab : a = b := Nat.le_antisymm h2 h
      simp [hab]

theorem foldl_add_shift {α : Type} (g : α → Nat) (l : List α) (n : Nat) :
    l.foldl (fun acc c => acc + g c) n = n + l.foldl (fun acc c => acc + g c) 0 := by
  induction l generalizing n with
  | nil => simp
  | cons c cs ih =>
      simp only [List.foldl_cons, Nat.zero_add]
      rw [ih (n + g c), ih (g c)]
      omega

theorem cueScore_cons (c : List Char) (cs : List (List Char)) (t : List Char) :
    cueScore (c :: cs) t = (if containsSub c t then 1 else 0) + cueScore cs t := by
  unfold cueScore
  simp only [List.foldl_cons, Nat.zero_add]
  exact foldl_add_shift _ cs _

theorem cueScore_zero_iff (cues : List (List Char)) (t : List Char) :
    cueScore cues t = 0 ↔ ∀ cue ∈ cues, containsSub cue t = false := by
  induction cues with
  | nil => simp [cueScore]
  | cons c cs ih =>
      rw [cueScore_cons]
      cases hc : containsSub c t with
      | false =>
          simp only [Bool.false_eq_true, ite_false, Nat.zero_add]
          rw [ih]
          constructor
          · intro h cue hcue
            rcases List.mem_cons.mp hcue with rfl | hmem
            · exact hc
            · exact h cue hmem
          · intro h cue hcue
            exact h cue (List.mem_cons_of_mem c hcue)
      | true =>
          simp only [ite_true]
          constructor
          · intro h
            exact absurd h (by omega)
          · intro h
            have := h c (List.mem_cons_self c cs)
            rw [hc] at this
            exact absurd this (by simp)

theorem cueFree_iff (text : List Char) :
    cueFree text = true ↔
      cueScore mortgage_cues (pyLower text) = 0 ∧ cueScore cc_cues (pyLower text) = 0 ∧
      cueScore brkg_cues (pyLower text) = 0 ∧ cueScore bank_cues (pyLower text) = 0 := by
  unfold cueFree allCues
  simp only [List.all_append, Bool.and_eq_true, List.all_eq_true, Bool.not_eq_true']
  rw [cueScore_zero_iff, cueScore_zero_iff, cueScore_zero_iff, cueScore_zero_iff]
  tauto

theorem pyDictMax4_val (sm sc sb sk : Nat) :
    (pyDictMax ("mortgage", sm) [("credit_card", sc), ("brokerage", sb), ("bank", sk)]).2
      = Nat.max sm (Nat.max sc (Nat.max sb sk)) := by
  unfold pyDictMax
  simp only [List.foldl_cons, List.foldl_nil, natMax_ite]
  split_ifs <;> simp_all <;> omega

theorem pyDictMax4_fst_mortgage (sm sc sb sk : Nat) :
    ((pyDictMax ("mortgage", sm) [("credit_card", sc), ("brokerage", sb), ("bank", sk)]).1
      = "mortgage") ↔ (sc ≤ sm ∧ sb ≤ sm ∧ sk ≤ sm) := by
  unfold pyDictMax
  simp only [List.foldl_cons, List.foldl_nil]
  split_ifs <;> simp_all <;> omega

theorem pyDictMax4_fst_cc (sm sc sb sk : Nat) :
    ((pyDictMax ("mortgage", sm) [("credit_card", sc), ("brokerage", sb), ("bank", sk)]).1
      = "credit_card") ↔ (sm < sc ∧ sb ≤ sc ∧ sk ≤ sc) := by
  unfold pyDictMax
  simp only [List.foldl_cons, List.foldl_nil]
  split_ifs <;> simp_all <;> omega

theorem pyDictMax4_fst_brkg (sm sc sb sk : Nat) :
    ((pyDictMax ("mortgage", sm) [("credit_card", sc), ("brokerage", sb), ("bank", sk)]).1
      = "brokerage") ↔ (sm < sb ∧ sc < sb ∧ sk ≤ sb) := by
  unfold pyDictMax
  simp only [List.foldl_cons, List.foldl_nil]
  split_ifs <;> simp_all <;> omega

theorem pyDictMax4_fst_bank (sm sc sb sk : Nat) :
    ((pyDictMax ("mortgage", sm) [("credit_card", sc), ("brokerage", sb), ("bank", sk)]).1
      = "bank") ↔ (sm < sk ∧ sc < sk ∧ sb < sk) := by
  unfold pyDictMax
  simp only [List.foldl_cons, List.foldl_nil]
  split_ifs <;> simp_all <;> omega

theorem pyDictMax4_fst_mem (sm sc sb sk : Nat) :
    (pyDictMax ("mortgage", sm) [("credit_card", sc), ("brokerage", sb), ("bank", sk)]).1
      ∈ (["mortgage", "credit_card", "brokerage", "bank"] : List String) := by
  unfold pyDictMax
  simp only [List.foldl_cons, List.foldl_nil]
  split_ifs <;> simp

theorem classify_snd (text : List Char) :
    (classify_statement text).2 =
      (if cueScore mortgage_cues (pyLower text) + cueScore cc_cues (pyLower text) +
          cueScore brkg_cues (pyLower text) + cueScore bank_cues (pyLower text) = 0 then (0 : ℚ)
       else ((pyDictMax ("mortgage", cueScore mortgage_cues (pyLower text))
               [("credit_card", cueScore cc_cues (pyLower text)),
                ("brokerage", cueScore brkg_cues (pyLower text)),
                ("bank", cueScore bank_cues (pyLower text))]).2 : ℚ) /
            (classifyDivisor (cueScore mortgage_cues (pyLower text))
               (cueScore cc_cues (pyLower text)) (cueScore brkg_cues (pyLower text))
               (cueScore bank_cues (pyLower text)) : ℚ)) := rfl

theorem classify_fst (text : List Char) :
    (classify_statement text).1 =
      (pyDictMax ("mortgage", cueScore mortgage_cues (pyLower text))
        [("credit_card", cueScore cc_cues (pyLower text)),
         ("brokerage", cueScore brkg_cues (pyLower text)),
         ("bank", cueScore bank_cues (pyLower text))]).1 := rfl

/-- C1: on any text in which no cue phrase of any of the four statement types
occurs (case-insensitively), `classify_statement` returns confidence exactly
0, and the divisor used by the confidence ratio is at least 1 on every
input, so no division by zero can occur. -/
theorem claim_C1 (text : List Char) (h : cueFree text = true) :
    (classify_statement text).2 = 0 ∧
      ∀ sm sc sb sk : Nat, 1 ≤ classifyDivisor sm sc sb sk := by
  obtain ⟨hm, hc, hb, hk⟩ := (cueFree_iff text).mp h
  constructor
  · rw [classify_snd, hm, hc, hb, hk]
    norm_num
  · intro sm sc sb sk
    exact Nat.le_max_left 1 _

theorem claim_C1_witness :
    (classify_statement "hello world this mentions no cue".toList).2 = 0 ∧
      ∀ sm sc sb sk : Nat, 1 ≤ classifyDivisor sm sc sb sk :=
  claim_C1 "hello world this mentions no cue".toList (by rfl)

/-- C2: `classify_statement`'s confidence is always exactly 0 or exactly 1;
it is 0 precisely when no cue phrase matches, so the caller's
`confidence < 0.5` policy test is equivalent to no cue phrase matching. -/
theorem claim_C2 (text : List Char) :
    ((classify_statement text).2 = 0 ∨ (classify_statement text).2 = 1) ∧
    ((classify_statement text).2 = 0 ↔ cueFree text = true) ∧
    ((classify_statement text).2 < 1 / 2 ↔ cueFree text = true) := by
  by_cases hf : cueFree text = true
  · obtain ⟨hm, hc, hb, hk⟩ := (cueFree_iff text).mp hf
    have h0 : (classify_statement text).2 = 0 := by
      rw [classify_snd, hm, hc, hb, hk]
      norm_num
    rw [h0]
    refine ⟨Or.inl rfl, by simp [hf], by norm_num [hf]⟩
  · have hnz : ¬(cueScore mortgage_cues (pyLower text) = 0 ∧
        cueScore cc_cues (pyLower text) = 0 ∧ cueScore brkg_cues (pyLower text) = 0 ∧
        cueScore bank_cues (pyLower text) = 0) :=
      fun hcon => hf ((cueFree_iff text).mpr hcon)
    have h1 : (classify_statement text).2 = 1 := by
      rw [classify_snd, pyDictMax4_val]
      have htot : ¬(cueScore mortgage_cues (pyLower text) + cueScore cc_cues (pyLower text) +
          cueScore brkg_cues (pyLower text) + cueScore bank_cues (pyLower text) = 0) := by
        omega
      rw [if_neg htot]
      have hmax : 1 ≤ Nat.max (cueScore mortgage_cues (pyLower text))
          (Nat.max (cueScore cc_cues (pyLower text))
            (Nat.max (cueScore brkg_cues (pyLower text)) (cueScore bank_cues (pyLower text)))) := by
        simp only [natMax_ite]
        split_ifs <;> omega
      have hdiv : classifyDivisor (cueScore mortgage_cues (pyLower text))
          (cueScore cc_cues (pyLower text)) (cueScore brkg_cues (pyLower text))
          (cueScore bank_cues (pyLower text)) = Nat.max (cueScore mortgage_cues (pyLower text))
          (Nat.max (cueScore cc_cues (pyLower text))
            (Nat.max (cueScore brkg_cues (pyLower text)) (cueScore bank_cues (pyLower text)))) := by
        unfold classifyDivisor
        exact Nat.max_eq_right hmax
      rw [hdiv]
      have hne : (Nat.max (cueScore mortgage_cues (pyLower text))
          (Nat.max (cueScore cc_cues (pyLower text))
            (Nat.max (cueScore brkg_cues (pyLower text)) (cueScore bank_cues (pyLower text)))) : ℚ)
          ≠ 0 := Nat.cast_ne_zero.mpr (by omega)
      exact div_self hne
    rw [h1]
    refine ⟨Or.inr rfl, by simp [hf], by norm_num [hf]⟩

/-- C9: the statement type returned by `classify_statement` is always one of
the four fixed types, and it is exactly the first type in enumeration order
(mortgage, credit_card, brokerage, bank) whose cue-hit score is not exceeded
by any other type's score (first maximum wins on ties). -/
theorem claim_C9 (text : List Char) :
    (classify_statement text).1 ∈ (["mortgage", "credit_card", "brokerage", "bank"] : List String) ∧
    ((classify_statement text).1 = "mortgage" ↔
      cueScore cc_cues (pyLower text) ≤ cueScore mortgage_cues (pyLower text) ∧
      cueScore brkg_cues (pyLower text) ≤ cueScore mortgage_cues (pyLower text) ∧
      cueScore bank_cues (pyLower text) ≤ cueScore mortgage_cues (pyLower text)) ∧
    ((classify_statement text).1 = "credit_card" ↔
      cueScore mortgage_cues (pyLower text) < cueScore cc_cues (pyLower text) ∧
      cueScore brkg_cues (pyLower text) ≤ cueScore cc_cues (pyLower text) ∧
      cueScore bank_cues (pyLower text) ≤ cueScore cc_cues (pyLower text)) ∧
    ((classify_statement text).1 = "brokerage" ↔
      cueScore mortgage_cues (pyLower text) < cueScore brkg_cues (pyLower text) ∧
      cueScore cc_cues (pyLower text) < cueScore brkg_cues (pyLower text) ∧
      cueScore bank_cues (pyLower text) ≤ cueScore brkg_cues (pyLower text)) ∧
    ((classify_statement text).1 = "bank" ↔
      cueScore mortgage_cues (pyLower text) < cueScore bank_cues (pyLower text) ∧
      cueScore cc_cues (pyLower text) < cueScore bank_cues (pyLower text) ∧
      cueScore brkg_cues (pyLower text) < cueScore bank_cues (pyLower text)) := by
  rw [classify_fst]
  exact ⟨pyDictMax4_fst_mem _ _ _ _, pyDictMax4_fst_mortgage _ _ _ _,
    pyDictMax4_fst_cc _ _ _ _, pyDictMax4_fst_brkg _ _ _ _, pyDictMax4_fst_bank _ _ _ _⟩

/-! ### A small backtracking regex engine

The Python code relies on `re` with a handful of fixed patterns.  We model
exactly the combinators those patterns use — character classes, sequencing,
ordered alternation, greedy bounded/unbounded repetition, capture groups,
the word-boundary assertion `\b` and the end anchor `$` — with CPython's
leftmost, alternation-ordered, greedy backtracking semantics: a match
attempt returns the list of all possible (end position, captures) outcomes
in backtracking priority order, and the engine takes the head. -/

/-- Capture record: (group index, start, stop), most recent capture first,
mirroring Python's rule that `group(k)` is the last capture of group `k`. -/
abbrev Caps : Type := List (Nat × Nat × Nat)

/-- Regular-expression syntax, covering the constructs used by the
patterns in classify.py and parsers/generic.py. -/
inductive RE : Type where
  | eps
  | cls (p : Char → Bool)
  | seq (r1 r2 : RE)
  | alt (r1 r2 : RE)
  | rep (r : RE) (lo : Nat) (hi : Option Nat)
  | grp (g : Nat) (r : RE)
  | wb
  | eos

/-- Python regex word characters (`\w`), ASCII range. -/
def isWordChar (c : Char) : Bool := c.isAlphanum || c == '_'

/-- Whether position `i` of `s` holds a word character. -/
def wordAt (s : List Char) (i : Nat) : Bool :=
  match s[i]? with
  | some ch => isWordChar ch
  | none => false

/-- The `\b` zero-width assertion at position `i`: the word-ness of the
character before `i` (non-word at the string edge) differs from the
word-ness of the character at `i`. -/
def wordBoundary (s : List Char) (i : Nat) : Bool :=
  (if i = 0 then false else wordAt s (i - 1)) != wordAt s i

/-- The `$` anchor: end of string, or just before a final newline. -/
def pyDollar (s : List Char) (i : Nat) : Bool :=
  i == s.length || (i + 1 == s.length && s[i]? == some '\n')

/-- Greedy bounded repetition of a body matcher `m`: all outcomes of
matching the body between `lo` and `hi` (`none` = unbounded) times starting
at `i`, longer iteration counts first.  An iteration must consume at least
one character (CPython stops repeating on an empty body match); `fuel`
bounds the recursion and `s.length + 1` is always enough because every
iteration advances the position. -/
def repAux (m : Nat → Caps → List (Nat × Caps)) :
    Nat → Nat → Option Nat → Nat → Caps → List (Nat × Caps)
  | 0, _, _, _, _ => []
  | fuel + 1, lo, hi, i, c =>
      let more :=
        if hi = some 0 then []
        else (m i c).flatMap (fun jc =>
          if jc.1 ≤ i then []
          else repAux m fuel (lo - 1) (hi.map (fun h => h - 1)) jc.1 jc.2)
      more ++ (if lo = 0 then [(i, c)] else [])

/-- All match outcomes of `re` against `s` starting at position `i` with
capture state `c`, in backtracking priority order. -/
def reMatch (s : List Char) : RE → Nat → Caps → List (Nat × Caps)
  | .eps, i, c => [(i, c)]
  | .cls p, i, c =>
      match s[i]? with
      | some ch => if p ch then [(i + 1, c)] else []
      | none => []
  | .seq r1 r2, i, c => (reMatch s r1 i c).flatMap (fun jc => reMatch s r2 jc.1 jc.2)
  | .alt r1 r2, i, c => reMatch s r1 i c ++ reMatch s r2 i c
  | .rep r lo hi, i, c => repAux (fun j cc => reMatch s r j cc) (s.length + 1) lo hi i c
  | .grp g r, i, c => (reMatch s r i c).map (fun jc => (jc.1, (g, i, jc.1) :: jc.2))
  | .wb, i, c => if wordBoundary s i then [(i, c)] else []
  | .eos, i, c => if pyDollar s i then [(i, c)] else []

/-- `re.search` scanning loop: try a match at `i`, `i+1`, … and return the
first position that matches, with the end position and captures of the
highest-priority match there.  The fuel argument only bounds the recursion;
`s.length + 1` covers every start position from 0 to `s.length`. -/
def searchFromAux (s : List Char) (re : RE) : Nat → Nat → Option (Nat × Nat × Caps)
  | 0, _ => none
  | fuel + 1, i =>
      match reMatch s re i [] with
      | jc :: _ => some (i, jc.1, jc.2)
      | [] => if i < s.length then searchFromAux s re fuel (i + 1) else none

/-- The search loop entered at position `i`. -/
def searchFrom (s : List Char) (re : RE) (i : Nat) : Option (Nat × Nat × Caps) :=
  searchFromAux s re (s.length + 1 - i) i

/-- Python `re.search(pattern, s)`. -/
def pySearch (re : RE) (s : List Char) : Option (Nat × Nat × Caps) :=
  searchFromAux s re (s.length + 1) 0

/-- Python `re.match(pattern, s)`: anchored at position 0. -/
def pyMatch (re : RE) (s : List Char) : Option (Nat × Caps) :=
  match reMatch s re 0 [] with
  | jc :: _ => some jc
  | [] => none

/-- Python `re.finditer`: non-overlapping matches scanning left to right,
resuming at each match's end (one past it for an empty match). -/
def findIterFrom (s : List Char) (re : RE) : Nat → Nat → List (Nat × Nat × Caps)
  | 0, _ => []
  | fuel + 1, i =>
      match searchFrom s re i with
      | none => []
      | some (b, e, c) => (b, e, c) :: findIterFrom s re fuel (if b < e then e else b + 1)

/-- All matches of `re` in `s` (the spans `re.finditer` yields). -/
def pyFindIter (re : RE) (s : List Char) : List (Nat × Nat × Caps) :=
  findIterFrom s re (s.length + 2) 0

/-- The substring of `s` from `b` (inclusive) to `e` (exclusive). -/
def sliceStr (s : List Char) (b e : Nat) : List Char := (s.drop b).take (e - b)

/-- Python `m.group(g)` as a span: the most recent capture of group `g`. -/
def capLookup (c : Caps) (g : Nat) : Option (Nat × Nat) :=
  match List.find? (fun (e : Nat × Nat × Nat) => e.1 == g) c with
  | some e => some e.2
  | none => none

/-- Python `m.group(g)` as a string. -/
def pyGroupStr (s : List Char) (caps : Caps) (g : Nat) : Option (List Char) :=
  (capLookup caps g).map (fun sp => sliceStr s sp.1 sp.2)

/-- Rebuild `s` with each span `(b, e)` (sorted, disjoint, as produced by
`pyFindIter`) replaced by `repl`: this is Python `re.sub(pattern, repl, s)`
for a constant replacement string. -/
def replaceSpansGo (s : List Char) (repl : List Char) : Nat → List (Nat × Nat) → List Char
  | i, [] => s.drop i
  | i, (b, e) :: rest => sliceStr s i b ++ repl ++ replaceSpansGo s repl e rest

/-- Python `re.sub(re, repl, s)` with a constant replacement. -/
def pySub (re : RE) (repl : List Char) (s : List Char) : List Char :=
  replaceSpansGo s repl 0 ((pyFindIter re s).map (fun m => (m.1, m.2.1)))

/-- The class `\d`. -/
def reDigit : RE := .cls Char.isDigit

/-- The class `\s` (ASCII range). -/
def reSpace : RE := .cls pyIsSpace

/-- The date-separator class of the patterns: a dash or a slash. -/
def reSep : RE := .cls (fun c => c == '-' || c == '/')

/-- A literal character. -/
def reChar (ch : Char) : RE := .cls (fun c => c == ch)

/-- A literal string (sequence of literal characters). -/
def reLit (cs : List Char) : RE := cs.foldr (fun ch acc => .seq (reChar ch) acc) .eps

/-! ### The fixed patterns of the source -/

/-- generic.py `_AMOUNT_RE`: an optional captured sign, an optional dollar
sign, then the captured value — either grouped digits with commas and two
decimals, or plain digits with two decimals (group 1 = sign, group 2 = val). -/
def AMOUNT_RE : RE :=
  .seq (.rep (.grp 1 (reChar '-')) 0 (some 1))
    (.seq (.rep (reChar '$') 0 (some 1))
      (.grp 2 (.alt
        (.seq (.rep reDigit 1 (some 3))
          (.seq (.rep (.seq (reChar ',') (.seq reDigit (.seq reDigit reDigit))) 0 none)
            (.seq (reChar '.') (.seq reDigit reDigit))))
        (.seq (.rep reDigit 1 none)
          (.seq (reChar '.') (.seq reDigit reDigit))))))

/-- generic.py `_DATE_LINE_RE`: anchored, a captured date token (1-2 digits,
separator, 1-2 digits, optionally separator and 2-4 digits), whitespace,
and the captured rest of the line up to `$` (group 1 = date, group 2 = rest). -/
def DATE_LINE_RE : RE :=
  .seq
    (.grp 1 (.seq (.rep reDigit 1 (some 2)) (.seq reSep (.seq (.rep reDigit 1 (some 2))
      (.rep (.seq reSep (.rep reDigit 2 (some 4))) 0 (some 1))))))
    (.seq (.rep reSpace 1 none)
      (.seq (.grp 2 (.rep (.cls (fun c => c != '\n')) 1 none)) .eos))

/-- The date token shape shared by classify.py's two patterns: 1-2 digits,
separator, 1-2 digits, separator, 2-4 digits. -/
def dateTokenRE : RE :=
  .seq (.rep reDigit 1 (some 2)) (.seq reSep (.seq (.rep reDigit 1 (some 2))
    (.seq reSep (.rep reDigit 2 (some 4)))))

/-- classify.py `_RANGE_RE` (compiled with IGNORECASE): two captured date
tokens separated by optional whitespace around one or more characters from
the class en-dash, dash, `t`, `o` (so also `T`, `O`). -/
def RANGE_RE : RE :=
  .seq (.grp 1 dateTokenRE)
    (.seq (.rep reSpace 0 none)
      (.seq (.rep (.cls (fun c =>
          c == '–' || c == '-' || c == 't' || c == 'T' || c == 'o' || c == 'O')) 1 none)
        (.seq (.rep reSpace 0 none) (.grp 2 dateTokenRE))))

/-- classify.py `_DATE_RE`: a date token with word boundaries on both sides
(its three digit fields are captured; only the whole match is consumed). -/
def DATE_RE : RE :=
  .seq .wb (.seq (.grp 1 (.rep reDigit 1 (some 2))) (.seq reSep
    (.seq (.grp 2 (.rep reDigit 1 (some 2))) (.seq reSep
      (.seq (.grp 3 (.rep reDigit 2 (some 4))) .wb)))))

/-- generic.py's default-year pattern: a word-bounded captured `20\d\d`. -/
def YEAR_RE : RE :=
  .seq .wb (.seq (.grp 1 (.seq (reChar '2') (.seq (reChar '0') (.seq reDigit reDigit)))) .wb)

/-- generic.py's whitespace-collapsing pattern: two or more `\s`. -/
def SPACES2_RE : RE := .rep reSpace 2 none

/-- classify.py's first masked-account pattern. -/
def ACCT1_RE : RE :=
  .seq (reLit "account ending in".toList)
    (.seq (.rep reSpace 0 none) (.grp 1 (.rep reDigit 3 (some 4))))

/-- classify.py's second masked-account pattern: `account`, optional
whitespace, `no` with optional dot, whitespace, stars, whitespace, digits. -/
def ACCT2_RE : RE :=
  .seq (reLit "account".toList)
    (.seq (.rep reSpace 0 none)
      (.seq (reLit "no".toList)
        (.seq (.rep (reChar '.') 0 (some 1))
          (.seq (.rep reSpace 0 none)
            (.seq (.rep (reChar '*') 1 none)
              (.seq (.rep reSpace 0 none) (.grp 1 (.rep reDigit 3 (some 4)))))))))

/-- classify.py's third masked-account pattern: two or more stars then the
captured digits. -/
def ACCT3_RE : RE :=
  .seq (.rep (reChar '*') 2 none) (.grp 1 (.rep reDigit 3 (some 4)))

/-- classify.py's fourth masked-account pattern: `xxxx`, optional
whitespace, the captured digits. -/
def ACCT4_RE : RE :=
  .seq (reLit "xxxx".toList) (.seq (.rep reSpace 0 none) (.grp 1 (.rep reDigit 3 (some 4))))

/-! ### Dates -/

/-- A `datetime.date` value (fields as validated by its constructor). -/
structure Date : Type where
  year : Nat
  month : Nat
  day : Nat
deriving DecidableEq, Repr

/-- Gregorian leap-year rule, as `datetime` uses. -/
def isLeap (y : Nat) : Bool := y % 4 == 0 && (y % 100 != 0 || y % 400 == 0)

/-- Days in a month of a given year. -/
def daysInMonth (y m : Nat) : Nat :=
  if m == 2 then (if isLeap y then 29 else 28)
  else if m == 4 || m == 6 || m == 9 || m == 11 then 30
  else 31

/-- `datetime.date(y, m, d)`: `none` models the `ValueError` the Python
constructor raises on out-of-range fields. -/
def mkDateI (y m d : Int) : Option Date :=
  if 1 ≤ y ∧ y ≤ 9999 ∧ 1 ≤ m ∧ m ≤ 12 ∧ 1 ≤ d ∧ d ≤ daysInMonth y.toNat m.toNat then
    some ⟨y.toNat, m.toNat, d.toNat⟩
  else none

/-- Field validity of a `Date` (what `mkDateI` guarantees). -/
def validDate (dt : Date) : Prop :=
  1 ≤ dt.year ∧ dt.year ≤ 9999 ∧ 1 ≤ dt.month ∧ dt.month ≤ 12 ∧
    1 ≤ dt.day ∧ dt.day ≤ daysInMonth dt.year dt.month

instance (dt : Date) : Decidable (validDate dt) := by
  unfold validDate
  exact inferInstance

/-- Python date comparison `a <= b` (lexicographic on year, month, day). -/
def dateLe (a b : Date) : Prop :=
  a.year < b.year ∨ (a.year = b.year ∧
    (a.month < b.month ∨ (a.month = b.month ∧ a.day ≤ b.day)))

instance (a b : Date) : Decidable (dateLe a b) := by
  unfold dateLe
  exact inferInstance

/-- Python date comparison `a < b`. -/
def dateLt (a b : Date) : Prop :=
  a.year < b.year ∨ (a.year = b.year ∧
    (a.month < b.month ∨ (a.month = b.month ∧ a.day < b.day)))

instance (a b : Date) : Decidable (dateLt a b) := by
  unfold dateLt
  exact inferInstance

/-- Python `max` over a non-empty list of dates: fold replacing the running
best only on strictly greater values, so the first maximum is kept. -/
def dateMaxList (first : Date) (rest : List Date) : Date :=
  rest.foldl (fun best d => if dateLt best d then d else best) first

/-! ### Integer and date-string parsing helpers -/

/-- Digit-string value. -/
def digitsToNat (ds : List Char) : Nat :=
  ds.foldl (fun acc c => acc * 10 + (c.toNat - '0'.toNat)) 0

/-- Python `int(str)` on the strings this code feeds it (regex-extracted
fields): optional surrounding whitespace, an optional sign, then at least
one digit; anything else raises, modelled as `none`. -/
def pyIntOfStr (s : List Char) : Option Int :=
  let go : List Char → Option Nat := fun ds =>
    if ds.isEmpty then none
    else if ds.all Char.isDigit then some (digitsToNat ds) else none
  match pyStrip s with
  | '-' :: ds => (go ds).map (fun n => -(n : Int))
  | '+' :: ds => (go ds).map (fun n => (n : Int))
  | ds => (go ds).map (fun n => (n : Int))

/-- Python `re.split(r"[\x2d/]", s)`: split at every dash or slash. -/
def splitSepsGo (cur : List Char) : List Char → List (List Char)
  | [] => [cur.reverse]
  | c :: rest =>
      if c == '-' || c == '/' then cur.reverse :: splitSepsGo [] rest
      else splitSepsGo (c :: cur) rest

/-- The separator split used by `_parse_date` and the dateutil model. -/
def splitSeps (s : List Char) : List (List Char) := splitSepsGo [] s

/-- classify.py `_parse_date`: split on separators, require exactly three
parts read as month, day, year, expand a two-digit year into 2000+YY, and
validate through the date constructor; any failure gives `none`. -/
def parse_date (s : List Char) : Option Date :=
  match splitSeps s with
  | [ms, ds, ys] =>
      match pyIntOfStr ys, pyIntOfStr ms, pyIntOfStr ds with
      | some yi, some mi, some di =>
          mkDateI (if yi < 100 then yi + 2000 else yi) mi di
      | _, _, _ => none
  | _ => none

/-! ### parsers/generic.py -/

/-- The value of the matched val group: `float(m.group("val").replace(",",
""))` — commas dropped, digits before and after the dot read as a decimal.
The val group always participates in a match, so the 0 default is
unreachable. -/
def amountBase (s : List Char) (caps : Caps) : ℚ :=
  match pyGroupStr s caps 2 with
  | some v =>
      let cleaned := v.filter (fun c => c != ',')
      match cleaned.span (fun c => c != '.') with
      | (ip, []) => (digitsToNat ip : ℚ)
      | (ip, _dot :: fp) =>
          mkRat (digitsToNat ip * 10 ^ fp.length + digitsToNat fp) (10 ^ fp.length)
  | none => 0

/-- generic.py `_parse_amount`: search for the amount pattern; the value is
the val group's number, negated when the sign group matched, and replaced
by the negated absolute value when the stripped input ends in a dash. -/
def parse_amount (s : List Char) : Option ℚ :=
  match pySearch AMOUNT_RE s with
  | none => none
  | some (_, _, caps) =>
      let val := amountBase s caps
      let val := if (capLookup caps 1).isSome then -val else val
      let val := if (pyStrip s).getLast? == some '-' then -|val| else val
      some val

/-- A component dateutil's `_ymd.append` labels a year on sight: a digit
string longer than two characters (this also sets `century_specified`). -/
def isYearToken (p : List Char) : Bool := p.all Char.isDigit && decide (2 < p.length)

/-- Modelled from dateutil's `parserinfo.convertyear`, with the current
year passed in as `pivotYear` (the library reads it from local time): a
year below 100 with no century evidence is placed in the pivot's century
and then shifted by 100 into the window [pivot - 50, pivot + 50). -/
def duConvertYear (pivotYear : Nat) (y : Int) (centurySpecified : Bool) : Int :=
  if y < 100 ∧ centurySpecified = false then
    let y2 : Int := y + ((pivotYear / 100) * 100 : Nat)
    if (pivotYear : Int) + 50 ≤ y2 then y2 - 100
    else if y2 < (pivotYear : Int) - 50 then y2 + 100
    else y2
  else y

/-- Modelled from the library call `dateutil.parser.parse(s,
default=datetime(default_year, 1, 1))` in generic.py
`_parse_date_from_fragment`, on the numeric fragments `_DATE_LINE_RE`
produces (1-2 digits, separator, 1-2 digits, optionally separator and 2-4
digits); `pivotYear` is the current year the library's century pivot uses.
Following `_ymd.resolve_ymd` with dayfirst and yearfirst off: two numbers
are month then day unless one exceeds 31, which makes it the year (the
other is the month, the day defaulting to 1); three numbers are year,
month, day when the first exceeds 31 or is a 3-4 digit token, day, month,
year when the first exceeds 12, and month, day, year otherwise.  A missing
year comes from the default (no century conversion); a parsed year passes
through `duConvertYear`, where century evidence is a 3-4 digit token — or,
for a third component reached through two different separator characters
(which dateutil appends as a number, not a string), a value above 100.
Fields are validated by the datetime constructor; an error yields `none`
(the Python caller catches the raised error).  This model was checked
against the library on all two- and three-component fragment shapes. -/
def parse_date_from_fragment (s : List Char) (default_year pivotYear : Nat) :
    Option Date :=
  let seps := s.filter (fun c => c == '-' || c == '/')
  match splitSeps s with
  | [pa, pb] =>
      match pyIntOfStr pa, pyIntOfStr pb with
      | some a, some b =>
          let century := isYearToken pa || isYearToken pb
          if 31 < a then mkDateI (duConvertYear pivotYear a century) b 1
          else if 31 < b then mkDateI (duConvertYear pivotYear b century) a 1
          else mkDateI (default_year : Int) a b
      | _, _ => none
  | [pa, pb, pc] =>
      match pyIntOfStr pa, pyIntOfStr pb, pyIntOfStr pc with
      | some a, some b, some c =>
          let sameSep :=
            match seps with
            | [s1, s2] => s1 == s2
            | _ => true
          let thirdYear := if sameSep then isYearToken pc else decide (100 < c)
          let century := isYearToken pa || isYearToken pb || thirdYear
          if 31 < a ∨ isYearToken pa = true then
            mkDateI (duConvertYear pivotYear a century) b c
          else if 12 < a then
            mkDateI (duConvertYear pivotYear c century) b a
          else
            mkDateI (duConvertYear pivotYear c century) a b
      | _, _, _ => none
  | _ => none

/-- The exact line-boundary set of Python `str.splitlines()`: LF, VT, FF,
CR, FS, GS, RS, NEL, LINE SEPARATOR and PARAGRAPH SEPARATOR. -/
def pyIsLineBreak (c : Char) : Bool :=
  c == '\n' || c == '\r' || c == '\x0b' || c == '\x0c' || c == '\x1c' ||
  c == '\x1d' || c == '\x1e' || c.toNat == 0x85 || c.toNat == 0x2028 ||
  c.toNat == 0x2029

/-- Python `str.splitlines()`: split at each line boundary, CRLF counting
as one, with no trailing empty line for a final line break. -/
def pySplitlinesGo (cur : List Char) : List Char → List (List Char)
  | [] => if cur.isEmpty then [] else [cur.reverse]
  | '\r' :: '\n' :: rest => cur.reverse :: pySplitlinesGo [] rest
  | c :: rest =>
      if pyIsLineBreak c then
        cur.reverse :: pySplitlinesGo [] rest
      else pySplitlinesGo (c :: cur) rest

/-- Python `str.splitlines()`. -/
def pySplitlines (s : List Char) : List (List Char) := pySplitlinesGo [] s

/-- Python `"\n".join(lines)`. -/
def joinNl (lines : List (List Char)) : List Char :=
  match lines with
  | [] => []
  | l :: rest => l ++ rest.flatMap (fun x => '\n' :: x)

/-- An extracted transaction dict (`posted_at`, `description`, `amount`;
the optional `merchant` key is never set by the extractor). -/
structure Txn : Type where
  posted_at : Date
  description : List Char
  amount : ℚ
deriving DecidableEq, Repr

/-- The per-line step of generic.py `extract_transactions_from_text`
(lines 49-71): match the date-line pattern, find an amount in the rest or
in the whole line, parse the date fragment, and build the transaction with
the amount-stripped, whitespace-collapsed description defaulting to
"Transaction". -/
def extractLine (default_year pivotYear : Nat) (ln : List Char) : Option Txn :=
  match pyMatch DATE_LINE_RE ln with
  | none => none
  | some (_, caps) =>
      let date_part := (pyGroupStr ln caps 1).getD []
      let rest := (pyGroupStr ln caps 2).getD []
      let amount :=
        match parse_amount rest with
        | some a => some a
        | none => parse_amount ln
      match amount with
      | none => none
      | some a =>
          match parse_date_from_fragment date_part default_year pivotYear with
          | none => none
          | some posted =>
              let description := pySub SPACES2_RE [' '] (pyStrip (pySub AMOUNT_RE [] rest))
              some ⟨posted, if description.isEmpty then "Transaction".toList else description, a⟩

/-- generic.py `extract_transactions_from_text`: flatten pages to stripped
non-blank lines, infer the default year from the first word-bounded
`20\d\d` in the joined lines (today's year otherwise), and extract one
transaction per matching line.  `todayYear` stands for the current year,
which the code reads both as `datetime.date.today().year` for the default
year and, inside dateutil, as the century pivot. -/
def extract_transactions_from_text (pages_text : List (List Char)) (todayYear : Nat) :
    List Txn :=
  let lines := pages_text.flatMap (fun page =>
    (pySplitlines page).filterMap (fun ln =>
      let t := pyStrip ln
      if t.isEmpty then none else some t))
  let default_year :=
    match pySearch YEAR_RE (joinNl lines) with
    | some (_, _, caps) => digitsToNat ((pyGroupStr (joinNl lines) caps 1).getD [])
    | none => todayYear
  lines.filterMap (extractLine default_year todayYear)

/-- The income/expense flag pair computed by generic.py lines 80-81. -/
structure Flags : Type where
  is_income : Bool
  is_expense : Bool
deriving DecidableEq, Repr

/-- The ordered keyword table of generic.py `categorize_transaction`. -/
def category_mapping : List (List Char × (List Char × List Char)) :=
  [("amazon".toList, ("Shopping".toList, "expense".toList)),
   ("target".toList, ("Shopping".toList, "expense".toList)),
   ("walmart".toList, ("Shopping".toList, "expense".toList)),
   ("whole foods".toList, ("Groceries".toList, "expense".toList)),
   ("trader joe".toList, ("Groceries".toList, "expense".toList)),
   ("costco".toList, ("Groceries".toList, "expense".toList)),
   ("uber".toList, ("Transport".toList, "expense".toList)),
   ("lyft".toList, ("Transport".toList, "expense".toList)),
   ("shell".toList, ("Transport".toList, "expense".toList)),
   ("exxon".toList, ("Transport".toList, "expense".toList)),
   ("starbucks".toList, ("Dining".toList, "expense".toList)),
   ("restaurant".toList, ("Dining".toList, "expense".toList)),
   ("mcdonald".toList, ("Dining".toList, "expense".toList)),
   ("mortgage".toList, ("Mortgage".toList, "expense".toList)),
   ("payroll".toList, ("Income:Salary".toList, "income".toList)),
   ("salary".toList, ("Income:Salary".toList, "income".toList)),
   ("dividend".toList, ("Income:Dividend".toList, "income".toList)),
   ("interest".toList, ("Income:Dividend".toList, "income".toList))]

/-- The (name, kind) pair generic.py lines 105-114 choose: the first
keyword occurring in the lowered description, else "Uncategorized" with the
kind derived from the sign.  (The `or` defaults of lines 77-78 only replace
a missing/empty description by the empty string and a missing/zero amount
by zero, which the record fields already represent.) -/
def categorize_chosen (txn : Txn) : List Char × List Char :=
  let desc := pyLower txn.description
  match category_mapping.find? (fun kv => containsSub kv.1 desc) with
  | some kv => kv.2
  | none =>
      ("Uncategorized".toList, if txn.amount < 0 then "expense".toList else "income".toList)

/-- generic.py `categorize_transaction`, with the database collaborator's
`get_or_create_category` abstracted as a fallible function: the sign flags
come from the amount alone, and the try/except around the collaborator
turns any error into an absent category id. -/
def categorize_transaction {ι ε : Type} (db : List Char → List Char → Except ε ι)
    (txn : Txn) : Option ι × Flags :=
  let is_income := decide (txn.amount > 0)
  let is_expense := decide (txn.amount < 0)
  let chosen := categorize_chosen txn
  let category_id :=
    match db chosen.1 chosen.2 with
    | Except.ok i => some i
    | Except.error _ => none
  (category_id, ⟨is_income, is_expense⟩)

/-! ### classify.py — institution/account and period -/

/-- Python `str.title()` on the ASCII institution names: uppercase a letter
not preceded by a letter, lowercase the other letters. -/
def pyTitleGo : Bool → List Char → List Char
  | _, [] => []
  | prev, ch :: rest =>
      (if ch.isAlpha && !prev then ch.toUpper else ch.toLower) :: pyTitleGo ch.isAlpha rest

/-- Python `str.title()`. -/
def pyTitle (s : List Char) : List Char := pyTitleGo false s

/-- The ordered institution dictionary of classify.py lines 53-55. -/
def institutions : List (List Char) :=
  ["chase".toList, "wells fargo".toList, "bank of america".toList,
   "american express".toList, "amex".toList, "citi".toList, "fidelity".toList,
   "vanguard".toList, "charles schwab".toList]

/-- The ordered masked-account patterns of classify.py lines 64-69. -/
def account_patterns : List RE := [ACCT1_RE, ACCT2_RE, ACCT3_RE, ACCT4_RE]

/-- The pattern loop of classify.py lines 70-75: first pattern whose search
matches wins, yielding its group 1. -/
def firstAcctMatch (low : List Char) : List RE → Option (List Char)
  | [] => none
  | p :: rest =>
      match pySearch p low with
      | some m => pyGroupStr low m.2.2 1
      | none => firstAcctMatch low rest

/-- classify.py `extract_institution_and_account`: the title-cased first
institution name occurring in the lowered text, and `"****"` prepended to
the first account pattern's captured digits. -/
def extract_institution_and_account (text : List Char) :
    Option (List Char) × Option (List Char) :=
  let low := pyLower text
  let inst := (institutions.find? (fun name => containsSub name low)).map pyTitle
  let last4 := firstAcctMatch low account_patterns
  (inst, last4.map (fun l4 => "****".toList ++ l4))

/-- One day before `d` for the in-range dates this code subtracts from
(`date(y, m+1, 1) - timedelta(days=1)` with `m+1 ≤ 12`). -/
def dateMinusOneDay (d : Date) : Date :=
  if 1 < d.day then ⟨d.year, d.month, d.day - 1⟩
  else if 1 < d.month then ⟨d.year, d.month - 1, daysInMonth d.year (d.month - 1)⟩
  else ⟨d.year - 1, 12, 31⟩

/-- The month-end computation of classify.py lines 101-104. -/
def monthEnd (ref : Date) : Date :=
  if ref.month == 12 then ⟨ref.year, 12, 31⟩
  else dateMinusOneDay ⟨ref.year, ref.month + 1, 1⟩

/-- The date tokens of the whole text that parse (classify.py lines 91-95). -/
def datesInText (text : List Char) : List Date :=
  (pyFindIter DATE_RE text).filterMap (fun m => parse_date (sliceStr text m.1 m.2.1))

/-- The explicit-range branch of classify.py lines 83-88: the first range
match whose two captured tokens parse as dates with the first ≤ the second. -/
def rangeBranch (text : List Char) : Option (Date × Date) :=
  match pySearch RANGE_RE text with
  | none => none
  | some (_, _, caps) =>
      match parse_date ((pyGroupStr text caps 1).getD []),
            parse_date ((pyGroupStr text caps 2).getD []) with
      | some d1, some d2 => if dateLe d1 d2 then some (d1, d2) else none
      | _, _ => none

/-- The fallback of classify.py lines 90-105: month boundaries around the
latest parseable date in the text, or around `today` when none parses. -/
def fallbackPeriod (text : List Char) (today : Date) : Date × Date :=
  let ref :=
    match datesInText text with
    | [] => today
    | d :: rest => dateMaxList d rest
  (⟨ref.year, ref.month, 1⟩, monthEnd ref)

/-- classify.py `infer_statement_period`, with `datetime.date.today()`
passed in as `today`. -/
def infer_statement_period (text : List Char) (today : Date) : Date × Date :=
  match rangeBranch text with
  | some p => p
  | none => fallbackPeriod text today

/-! ### Claims about the parsers -/

/-- A category collaborator that always succeeds, returning the requested
(name, kind) pair so the chosen category is observable. -/
def dbOk : List Char → List Char → Except Unit (List Char × List Char) :=
  fun name kind => Except.ok (name, kind)

/-- C4: amount parsing sends "-$1,234.56" to -1234.56, "1234.56-" to
-1234.56 and "$45.00" to 45 (stated with exact rationals); whenever the stripped input ends in a dash
the result is the negated absolute value (so the trailing dash forces a
non-positive result over any other sign marker), and otherwise the result
is the matched value negated exactly when the sign group matched a
leading dash. -/
theorem claim_C4 :
    parse_amount "-$1,234.56".toList = some (mkRat (-123456) 100) ∧
    parse_amount "1234.56-".toList = some (mkRat (-123456) 100) ∧
    parse_amount "$45.00".toList = some ((45 : ℚ)) ∧
    (∀ s v, parse_amount s = some v → (pyStrip s).getLast? = some '-' → v = -|v|) ∧
    (∀ s b e caps, pySearch AMOUNT_RE s = some (b, e, caps) →
      (pyStrip s).getLast? ≠ some '-' →
      parse_amount s = some (if (capLookup caps 1).isSome then -(amountBase s caps)
                             else amountBase s caps)) := by
  refine ⟨by decide, by decide, by decide, ?_, ?_⟩
  · intro s v hv hdash
    unfold parse_amount at hv
    cases hs : pySearch AMOUNT_RE s with
    | none =>
        rw [hs] at hv
        exact absurd hv (by simp)
    | some m =>
        obtain ⟨b, e, caps⟩ := m
        rw [hs] at hv
        rw [hdash] at hv
        simp only [beq_self_eq_true, ite_true, Option.some.injEq] at hv
        subst hv
        rw [abs_neg, abs_abs]
  · intro s b e caps hs hdash
    unfold parse_amount
    rw [hs]
    have hbeq : ((pyStrip s).getLast? == some '-') = false := by
      exact beq_eq_false_iff_ne.mpr hdash
    rw [hbeq]
    simp

/-- C5 counterexample: on a transaction whose amount is exactly 0 the code
sets `is_expense` to `false` (and `is_income` to `false` as well), against
the claim that zero amounts are treated as expenses. -/
theorem claim_C5_counterexample :
    (⟨⟨2024, 1, 1⟩, "misc".toList, 0⟩ : Txn).amount = 0 ∧
    (categorize_transaction dbOk ⟨⟨2024, 1, 1⟩, "misc".toList, 0⟩).2.is_expense = false ∧
    (categorize_transaction dbOk ⟨⟨2024, 1, 1⟩, "misc".toList, 0⟩).2.is_income = false := by
  refine ⟨rfl, by decide, by decide⟩

/-- C5 amended: for every transaction, `categorize_transaction` returns
`is_income = false` and `is_expense = false` precisely when the amount is
exactly 0 — a zero amount yields neither flag, not the expense flag. -/
theorem claim_C5 {ι ε : Type} (db : List Char → List Char → Except ε ι) (txn : Txn) :
    ((categorize_transaction db txn).2.is_income = false ∧
      (categorize_transaction db txn).2.is_expense = false) ↔ txn.amount = 0 := by
  unfold categorize_transaction
  simp only [decide_eq_false_iff_not, not_lt]
  constructor
  · rintro ⟨h1, h2⟩
    exact le_antisymm h1 h2
  · intro h
    rw [h]
    exact ⟨le_refl 0, le_refl 0⟩

/-- C6: the single line "03/14/2024  STARBUCKS COFFEE   $5.75" extracts
(for any stand-in value of today's year) exactly one transaction dated
2024-03-14 with description "STARBUCKS COFFEE" and amount 5.75, and
categorizing it chooses the ("Dining", "expense") category while setting
`is_income = true` and `is_expense = false`: the keyword category is
independent of the amount's sign. -/
theorem claim_C6 :
    (∀ todayYear : Nat,
      extract_transactions_from_text ["03/14/2024  STARBUCKS COFFEE   $5.75".toList] todayYear
        = [⟨⟨2024, 3, 14⟩, "STARBUCKS COFFEE".toList, mkRat 575 100⟩]) ∧
    (categorize_transaction dbOk ⟨⟨2024, 3, 14⟩, "STARBUCKS COFFEE".toList, mkRat 575 100⟩).1 =
      some ("Dining".toList, "expense".toList) ∧
    (categorize_transaction dbOk ⟨⟨2024, 3, 14⟩, "STARBUCKS COFFEE".toList, mkRat 575 100⟩).2 =
      ⟨true, false⟩ := by
  refine ⟨fun todayYear => ?_, by decide, by decide⟩
  rfl

/-- C10: when the category collaborator fails with any error on the chosen
(name, kind), `categorize_transaction` still returns normally, with an
absent category id and the amount-sign flags unchanged. -/
theorem claim_C10 {ι ε : Type} (db : List Char → List Char → Except ε ι) (txn : Txn)
    (er : ε) (h : db (categorize_chosen txn).1 (categorize_chosen txn).2 = Except.error er) :
    categorize_transaction db txn =
      (none, ⟨decide (txn.amount > 0), decide (txn.amount < 0)⟩) := by
  unfold categorize_transaction
  simp only [h]

theorem claim_C10_witness :
    categorize_transaction (fun _ _ => (Except.error () : Except Unit Unit))
        ⟨⟨2024, 1, 1⟩, "coffee".toList, -3⟩ =
      (none, ⟨decide ((-3 : ℚ) > 0), decide ((-3 : ℚ) < 0)⟩) :=
  claim_C10 (fun _ _ => Except.error ()) ⟨⟨2024, 1, 1⟩, "coffee".toList, -3⟩ () rfl

theorem claim_C4_witness :
    mkRat (-725) 100 = -|mkRat (-725) 100| :=
  claim_C4.2.2.2.1 " 7.25- ".toList (mkRat (-725) 100) (by decide) (by decide)

/-- The description rule as the claim words it: remove only the matched
amount substring — the first match, the one the amount was taken from —
from the remainder, then trim and collapse repeated whitespace, defaulting
to "Transaction" when empty. -/
def specDescription (rest : List Char) : List Char :=
  let removed :=
    match pySearch AMOUNT_RE rest with
    | some (b, e, _) => sliceStr rest 0 b ++ sliceStr rest e rest.length
    | none => rest
  let d := pySub SPACES2_RE [' '] (pyStrip removed)
  if d.isEmpty then "Transaction".toList else d

/-- C7 counterexample: on the line "01/02/2024 PAY 10.00 FEE 2.00" the code
removes every amount-pattern occurrence from the remainder (yielding
description "PAY FEE"), not just the matched amount substring the claim
describes (which would yield "PAY FEE 2.00"). -/
theorem claim_C7_counterexample :
    extract_transactions_from_text ["01/02/2024 PAY 10.00 FEE 2.00".toList] 2026 =
      [⟨⟨2024, 1, 2⟩, "PAY FEE".toList, 10⟩] ∧
    specDescription "PAY 10.00 FEE 2.00".toList = "PAY FEE 2.00".toList ∧
    "PAY FEE".toList ≠ "PAY FEE 2.00".toList := by
  refine ⟨by decide, by decide, by decide⟩

theorem extractLine_desc_ne_nil (dy py : Nat) (ln : List Char) (t : Txn)
    (h : extractLine dy py ln = some t) : t.description ≠ [] := by
  unfold extractLine at h
  split at h
  · exact absurd h (by simp)
  · dsimp only at h
    repeat' split at h
    all_goals
      first
      | exact Option.noConfusion h
      | (rw [Option.some.injEq] at h
         subst h
         dsimp only
         first
         | decide
         | simp_all)

/-- C7 amended: the description of every emitted transaction is the
remainder with every amount-pattern occurrence removed (not only the
matched one), whitespace-collapsed and trimmed, with "Transaction"
substituted when empty; consequently every emitted description is
non-empty. -/
theorem claim_C7 (pages_text : List (List Char)) (todayYear : Nat) (t : Txn)
    (h : t ∈ extract_transactions_from_text pages_text todayYear) :
    t.description ≠ [] := by
  unfold extract_transactions_from_text at h
  rw [List.mem_filterMap] at h
  obtain ⟨ln, _, hln⟩ := h
  exact extractLine_desc_ne_nil _ _ ln t hln

theorem claim_C7_witness :
    (⟨⟨2024, 1, 2⟩, "PAY FEE".toList, 10⟩ : Txn).description ≠ [] :=
  claim_C7 ["01/02/2024 PAY 10.00 FEE 2.00".toList] 2026
    ⟨⟨2024, 1, 2⟩, "PAY FEE".toList, 10⟩ (by decide)

/-! ### Period inference (C3) -/

theorem dateLe_refl (a : Date) : dateLe a a := by
  unfold dateLe
  omega

theorem dateLe_trans {a b c : Date} (h1 : dateLe a b) (h2 : dateLe b c) : dateLe a c := by
  unfold dateLe at h1 h2 ⊢
  omega

theorem dateLt_dateLe {a b : Date} (h : dateLt a b) : dateLe a b := by
  unfold dateLt at h
  unfold dateLe
  omega

theorem not_dateLt_dateLe {a b : Date} (h : ¬dateLt a b) : dateLe b a := by
  unfold dateLt at h
  unfold dateLe
  omega

theorem mkDateI_valid (y m d : Int) (dt : Date) (h : mkDateI y m d = some dt) :
    validDate dt := by
  unfold mkDateI at h
  split at h
  · rw [Option.some.injEq] at h
    subst h
    rename_i hcond
    unfold validDate
    dsimp only
    obtain ⟨h1, h2, h3, h4, h5, h6⟩ := hcond
    refine ⟨by omega, by omega, by omega, by omega, by omega, by omega⟩
  · exact Option.noConfusion h

theorem parse_date_valid (s : List Char) (dt : Date) (h : parse_date s = some dt) :
    validDate dt := by
  unfold parse_date at h
  split at h
  · split at h
    · exact mkDateI_valid _ _ _ _ h
    · exact Option.noConfusion h
  · exact Option.noConfusion h

theorem datesInText_valid (text : List Char) :
    ∀ d ∈ datesInText text, validDate d := by
  intro d hd
  unfold datesInText at hd
  rw [List.mem_filterMap] at hd
  obtain ⟨m, _, hp⟩ := hd
  exact parse_date_valid _ _ hp

theorem foldlMax_mem (rest : List Date) :
    ∀ first : Date,
      rest.foldl (fun best d => if dateLt best d then d else best) first ∈ first :: rest := by
  induction rest with
  | nil =>
      intro first
      simp
  | cons d ds ih =>
      intro first
      simp only [List.foldl_cons]
      rcases List.mem_cons.mp (ih (if dateLt first d then d else first)) with heq | hmem
      · rw [heq]
        split
        · exact List.mem_cons_of_mem _ (List.mem_cons_self _ _)
        · exact List.mem_cons_self _ _
      · exact List.mem_cons_of_mem _ (List.mem_cons_of_mem _ hmem)

theorem foldlMax_ub (rest : List Date) :
    ∀ first : Date, ∀ x ∈ first :: rest,
      dateLe x (rest.foldl (fun best d => if dateLt best d then d else best) first) := by
  induction rest with
  | nil =>
      intro first x hx
      rw [List.mem_singleton] at hx
      subst hx
      exact dateLe_refl x
  | cons d ds ih =>
      intro first x hx
      simp only [List.foldl_cons]
      have hleft : dateLe first (if dateLt first d then d else first) := by
        split
        · rename_i hlt
          exact dateLt_dateLe hlt
        · exact dateLe_refl first
      have hright : dateLe d (if dateLt first d then d else first) := by
        split
        · exact dateLe_refl d
        · rename_i hnlt
          exact not_dateLt_dateLe hnlt
      have hrec := ih (if dateLt first d then d else first)
      rcases List.mem_cons.mp hx with rfl | hx2
      · exact dateLe_trans hleft (hrec _ (List.mem_cons_self _ _))
      · rcases List.mem_cons.mp hx2 with rfl | hx3
        · exact dateLe_trans hright (hrec _ (List.mem_cons_self _ _))
        · exact hrec x (List.mem_cons_of_mem _ hx3)

theorem monthStart_le_monthEnd (ref : Date) (h1 : 1 ≤ ref.month) (h2 : ref.month ≤ 12) :
    dateLe ⟨ref.year, ref.month, 1⟩ (monthEnd ref) := by
  unfold monthEnd dateMinusOneDay daysInMonth dateLe
  simp only [beq_iff_eq]
  split_ifs <;> dsimp only <;> omega

theorem rangeBranch_le (text : List Char) (p : Date × Date)
    (h : rangeBranch text = some p) : dateLe p.1 p.2 := by
  unfold rangeBranch at h
  split at h
  · exact Option.noConfusion h
  · split at h
    · split at h
      · rw [Option.some.injEq] at h
        subst h
        rename_i hle
        exact hle
      · exact Option.noConfusion h
    · exact Option.noConfusion h

theorem fallbackPeriod_spec (text : List Char) (today : Date) (htoday : validDate today) :
    ∃ ref : Date,
      (datesInText text = [] ∧ ref = today ∨ ref ∈ datesInText text) ∧
      (∀ d ∈ datesInText text, dateLe d ref) ∧
      fallbackPeriod text today = (⟨ref.year, ref.month, 1⟩, monthEnd ref) ∧
      dateLe (fallbackPeriod text today).1 (fallbackPeriod text today).2 := by
  unfold fallbackPeriod
  cases hdt : datesInText text with
  | nil =>
      refine ⟨today, Or.inl ⟨rfl, rfl⟩, by simp, rfl, ?_⟩
      exact monthStart_le_monthEnd today (by exact htoday.2.2.1) (by exact htoday.2.2.2.1)
  | cons d rest =>
      refine ⟨dateMaxList d rest, Or.inr (foldlMax_mem rest d), ?_, rfl, ?_⟩
      · intro x hx
        exact foldlMax_ub rest d x hx
      · have hvalid : validDate (dateMaxList d rest) := by
          apply datesInText_valid text
          rw [hdt]
          exact foldlMax_mem rest d
        exact monthStart_le_monthEnd _ hvalid.2.2.1 hvalid.2.2.2.1

/-- C3: the statement period always satisfies start ≤ end; when the range
regex finds a match whose two captured tokens parse as dates with the
first ≤ the second, exactly that pair is returned; and otherwise the
result is the first-to-last-day month window of a reference date that is
the latest parseable date token in the text, or today when no token
parses. -/
theorem claim_C3 (text : List Char) (today : Date) (htoday : validDate today) :
    dateLe (infer_statement_period text today).1 (infer_statement_period text today).2 ∧
    (∀ b e caps d1 d2, pySearch RANGE_RE text = some (b, e, caps) →
      parse_date ((pyGroupStr text caps 1).getD []) = some d1 →
      parse_date ((pyGroupStr text caps 2).getD []) = some d2 →
      dateLe d1 d2 →
      infer_statement_period text today = (d1, d2)) ∧
    (rangeBranch text = none →
      ∃ ref : Date,
        (datesInText text = [] ∧ ref = today ∨ ref ∈ datesInText text) ∧
        (∀ d ∈ datesInText text, dateLe d ref) ∧
        infer_statement_period text today = (⟨ref.year, ref.month, 1⟩, monthEnd ref)) := by
  refine ⟨?_, ?_, ?_⟩
  · unfold infer_statement_period
    cases hr : rangeBranch text with
    | some p => exact rangeBranch_le text p hr
    | none =>
        obtain ⟨ref, _, _, _, hle⟩ := fallbackPeriod_spec text today htoday
        exact hle
  · intro b e caps d1 d2 hs hp1 hp2 hle
    have hrb : rangeBranch text = some (d1, d2) := by
      unfold rangeBranch
      rw [hs]
      dsimp only
      rw [hp1, hp2]
      dsimp only
      rw [if_pos hle]
    unfold infer_statement_period
    rw [hrb]
  · intro hr
    obtain ⟨ref, hmem, hub, heq, _⟩ := fallbackPeriod_spec text today htoday
    refine ⟨ref, hmem, hub, ?_⟩
    unfold infer_statement_period
    rw [hr]
    exact heq

theorem claim_C3_witness :
    dateLe (infer_statement_period "stmt 01/15/2024 - 02/14/2024".toList ⟨2026, 10, 12⟩).1
      (infer_statement_period "stmt 01/15/2024 - 02/14/2024".toList ⟨2026, 10, 12⟩).2 :=
  (claim_C3 "stmt 01/15/2024 - 02/14/2024".toList ⟨2026, 10, 12⟩ (by decide)).1

/-! ### Engine soundness facts for the masked-account shape (C8) -/

theorem repAux_cls_mem (s : List Char) (p : Char → Bool) :
    ∀ (fuel lo hi i : Nat) (c : Caps) (j : Nat) (c' : Caps),
      (j, c') ∈ repAux (fun k cc => reMatch s (.cls p) k cc) fuel lo (some hi) i c →
      c' = c ∧ i ≤ j ∧ lo ≤ j - i ∧ j - i ≤ hi ∧
        ∀ k, i ≤ k → k < j → ∃ ch, s[k]? = some ch ∧ p ch = true := by
  intro fuel
  induction fuel with
  | zero =>
      intro lo hi i c j c' h
      exact absurd h (List.not_mem_nil _)
  | succ fuel ih =>
      intro lo hi i c j c' h
      unfold repAux at h
      rw [List.mem_append] at h
      rcases h with hmore | hcont
      · by_cases hhi : (some hi : Option Nat) = some 0
        · rw [if_pos hhi] at hmore
          exact absurd hmore (List.not_mem_nil _)
        · rw [if_neg hhi] at hmore
          rw [List.mem_flatMap] at hmore
          obtain ⟨jc, hjc, hrec⟩ := hmore
          have hjc2 : jc ∈ reMatch s (.cls p) i c := hjc
          unfold reMatch at hjc2
          cases hsi : s[i]? with
          | none =>
              rw [hsi] at hjc2
              exact absurd hjc2 (List.not_mem_nil _)
          | some ch =>
              rw [hsi] at hjc2
              dsimp only at hjc2
              by_cases hp : p ch = true
              · rw [if_pos hp] at hjc2
                rw [List.mem_singleton] at hjc2
                subst hjc2
                rw [if_neg (by omega : ¬ i + 1 ≤ i)] at hrec
                simp only [Option.map_some'] at hrec
                obtain ⟨hc, hij, hlo2, hhi2, hchars⟩ :=
                  ih (lo - 1) (hi - 1) (i + 1) c j c' hrec
                have hhi0 : hi ≠ 0 := fun h0 => hhi (by rw [h0])
                refine ⟨hc, by omega, by omega, by omega, ?_⟩
                intro k hk1 hk2
                rcases Nat.eq_or_lt_of_le hk1 with rfl | hk3
                · exact ⟨ch, hsi, hp⟩
                · exact hchars k (by omega) hk2
              · rw [if_neg hp] at hjc2
                exact absurd hjc2 (List.not_mem_nil _)
      · by_cases hlo : lo = 0
        · rw [if_pos hlo] at hcont
          rw [List.mem_singleton, Prod.mk.injEq] at hcont
          obtain ⟨rfl, rfl⟩ := hcont
          exact ⟨rfl, Nat.le_refl _, by omega, by omega,
            fun k hk1 hk2 => absurd (Nat.lt_of_le_of_lt hk1 hk2) (Nat.lt_irrefl _)⟩
        · rw [if_neg hlo] at hcont
          exact absurd hcont (List.not_mem_nil _)

theorem reMatch_seq_tail (s : List Char) (r1 r2 : RE) {i : Nat} {c : Caps} {j : Nat}
    {c' : Caps} (h : (j, c') ∈ reMatch s (.seq r1 r2) i c) :
    ∃ mid cmid, (j, c') ∈ reMatch s r2 mid cmid := by
  unfold reMatch at h
  rw [List.mem_flatMap] at h
  obtain ⟨jc, _, h2⟩ := h
  exact ⟨jc.1, jc.2, h2⟩

theorem reMatch_grp_mem (s : List Char) (g : Nat) (r : RE) {i : Nat} {c : Caps} {j : Nat}
    {c' : Caps} (h : (j, c') ∈ reMatch s (.grp g r) i c) :
    ∃ crep, (j, crep) ∈ reMatch s r i c ∧ c' = (g, i, j) :: crep := by
  unfold reMatch at h
  rw [List.mem_map] at h
  obtain ⟨jc, hjc, heq⟩ := h
  obtain ⟨j0, c0⟩ := jc
  rw [Prod.mk.injEq] at heq
  obtain ⟨h1, h2⟩ := heq
  subst h1
  exact ⟨c0, hjc, h2.symm⟩

theorem acct_tail_shape (s : List Char) {i j : Nat} {c : Caps} {c' : Caps}
    (h : (j, c') ∈ reMatch s (.grp 1 (.rep reDigit 3 (some 4))) i c) :
    capLookup c' 1 = some (i, j) ∧ 3 ≤ j - i ∧ j - i ≤ 4 ∧ i ≤ j ∧
      ∀ k, i ≤ k → k < j → ∃ ch, s[k]? = some ch ∧ ch.isDigit = true := by
  obtain ⟨crep, hrep, hceq⟩ := reMatch_grp_mem s 1 _ h
  have hrep2 : (j, crep) ∈ repAux (fun k cc => reMatch s (.cls Char.isDigit) k cc)
      (s.length + 1) 3 (some 4) i c := hrep
  obtain ⟨_, hij, hlo, hhi, hchars⟩ :=
    repAux_cls_mem s Char.isDigit (s.length + 1) 3 4 i c j crep hrep2
  subst hceq
  exact ⟨rfl, hlo, hhi, hij, hchars⟩

theorem acct_cap_shape (s : List Char) (p : RE) (hp : p ∈ account_patterns)
    {i j : Nat} {c' : Caps} (h : (j, c') ∈ reMatch s p i []) :
    ∃ b, capLookup c' 1 = some (b, j) ∧ 3 ≤ j - b ∧ j - b ≤ 4 ∧ b ≤ j ∧
      ∀ k, b ≤ k → k < j → ∃ ch, s[k]? = some ch ∧ ch.isDigit = true := by
  simp only [account_patterns, List.mem_cons, List.not_mem_nil, or_false] at hp
  rcases hp with rfl | rfl | rfl | rfl
  · unfold ACCT1_RE at h
    obtain ⟨m1, c1, h⟩ := reMatch_seq_tail s _ _ h
    obtain ⟨m2, c2, h⟩ := reMatch_seq_tail s _ _ h
    obtain ⟨hcap, h3, h4, hle, hch⟩ := acct_tail_shape s h
    exact ⟨m2, hcap, h3, h4, hle, hch⟩
  · unfold ACCT2_RE at h
    obtain ⟨m1, c1, h⟩ := reMatch_seq_tail s _ _ h
    obtain ⟨m2, c2, h⟩ := reMatch_seq_tail s _ _ h
    obtain ⟨m3, c3, h⟩ := reMatch_seq_tail s _ _ h
    obtain ⟨m4, c4, h⟩ := reMatch_seq_tail s _ _ h
    obtain ⟨m5, c5, h⟩ := reMatch_seq_tail s _ _ h
    obtain ⟨m6, c6, h⟩ := reMatch_seq_tail s _ _ h
    obtain ⟨m7, c7, h⟩ := reMatch_seq_tail s _ _ h
    obtain ⟨hcap, h3, h4, hle, hch⟩ := acct_tail_shape s h
    exact ⟨m7, hcap, h3, h4, hle, hch⟩
  · unfold ACCT3_RE at h
    obtain ⟨m1, c1, h⟩ := reMatch_seq_tail s _ _ h
    obtain ⟨hcap, h3, h4, hle, hch⟩ := acct_tail_shape s h
    exact ⟨m1, hcap, h3, h4, hle, hch⟩
  · unfold ACCT4_RE at h
    obtain ⟨m1, c1, h⟩ := reMatch_seq_tail s _ _ h
    obtain ⟨m2, c2, h⟩ := reMatch_seq_tail s _ _ h
    obtain ⟨hcap, h3, h4, hle, hch⟩ := acct_tail_shape s h
    exact ⟨m2, hcap, h3, h4, hle, hch⟩

theorem searchFromAux_sound (s : List Char) (re : RE) :
    ∀ (fuel i b e : Nat) (c : Caps),
      searchFromAux s re fuel i = some (b, e, c) → (e, c) ∈ reMatch s re b [] := by
  intro fuel
  induction fuel with
  | zero =>
      intro i b e c h
      exact Option.noConfusion h
  | succ fuel ih =>
      intro i b e c h
      unfold searchFromAux at h
      cases hm : reMatch s re i [] with
      | nil =>
          rw [hm] at h
          dsimp only at h
          split at h
          · exact ih _ _ _ _ h
          · exact Option.noConfusion h
      | cons jc rest =>
          rw [hm] at h
          dsimp only at h
          rw [Option.some.injEq, Prod.mk.injEq] at h
          obtain ⟨rfl, h2⟩ := h
          rw [Prod.mk.injEq] at h2
          obtain ⟨rfl, rfl⟩ := h2
          rw [hm]
          exact List.mem_cons_self _ _

theorem firstAcctMatch_spec (low : List Char) :
    ∀ (ps : List RE) (res : List Char), firstAcctMatch low ps = some res →
      ∃ pre p post, ps = pre ++ p :: post ∧ (∀ q ∈ pre, pySearch q low = none) ∧
        ∃ m, pySearch p low = some m ∧ pyGroupStr low m.2.2 1 = some res := by
  intro ps
  induction ps with
  | nil =>
      intro res h
      exact Option.noConfusion h
  | cons p rest ih =>
      intro res h
      unfold firstAcctMatch at h
      cases hs : pySearch p low with
      | some m =>
          rw [hs] at h
          exact ⟨[], p, rest, rfl, by simp, m, hs, h⟩
      | none =>
          rw [hs] at h
          obtain ⟨pre, p2, post, heq, hnone, m, hm, hg⟩ := ih res h
          refine ⟨p :: pre, p2, post, by rw [heq]; rfl, ?_, m, hm, hg⟩
          intro q hq
          rcases List.mem_cons.mp hq with rfl | hq2
          · exact hs
          · exact hnone q hq2

theorem sliceStr_shape (s : List Char) (b j : Nat) (hbj : b ≤ j)
    (hchars : ∀ k, b ≤ k → k < j → ∃ ch, s[k]? = some ch ∧ ch.isDigit = true) :
    (sliceStr s b j).length = j - b ∧ (sliceStr s b j).all Char.isDigit = true := by
  have hlen : (sliceStr s b j).length = j - b := by
    unfold sliceStr
    rcases Nat.eq_or_lt_of_le hbj with rfl | hlt
    · simp
    · have hjs : j ≤ s.length := by
        obtain ⟨ch, hch, _⟩ := hchars (j - 1) (by omega) (by omega)
        by_contra hcon
        rw [List.getElem?_eq_none (by omega)] at hch
        exact Option.noConfusion hch
      rw [List.length_take, List.length_drop]
      omega
  refine ⟨hlen, ?_⟩
  rw [List.all_eq_true]
  intro x hx
  obtain ⟨n, hn, hget⟩ := List.getElem_of_mem hx
  have hn2 : n < j - b := by rw [hlen] at hn; exact hn
  have hidx : (sliceStr s b j)[n]? = s[b + n]? := by
    unfold sliceStr
    rw [List.getElem?_take, if_pos hn2, List.getElem?_drop]
  obtain ⟨ch, hch, hd⟩ := hchars (b + n) (by omega) (by omega)
  have : (sliceStr s b j)[n]? = some x := by
    rw [List.getElem?_eq_some_iff]
    exact ⟨hn, hget⟩
  rw [hidx, hch] at this
  rw [Option.some.injEq] at this
  subst this
  exact hd

/-- C8: whenever `extract_institution_and_account` returns a masked
account, it is the string "****" followed by the 3 or 4 digit characters
captured by the first of the four ordered account patterns whose search
matches the lowered text; in particular it never contains more than 4
digits after the stars and never a longer account number. -/
theorem claim_C8 (text : List Char) (masked : List Char)
    (h : (extract_institution_and_account text).2 = some masked) :
    ∃ ds, masked = "****".toList ++ ds ∧
      (ds.length = 3 ∨ ds.length = 4) ∧ ds.all Char.isDigit = true ∧
      ∃ pre p post, account_patterns = pre ++ p :: post ∧
        (∀ q ∈ pre, pySearch q (pyLower text) = none) ∧
        ∃ m, pySearch p (pyLower text) = some m := by
  unfold extract_institution_and_account at h
  dsimp only at h
  cases hl : firstAcctMatch (pyLower text) account_patterns with
  | none =>
      rw [hl] at h
      exact Option.noConfusion h
  | some l4 =>
      rw [hl] at h
      rw [Option.map_some', Option.some.injEq] at h
      obtain ⟨pre, p, post, heq, hnone, m, hm, hg⟩ := firstAcctMatch_spec _ _ _ hl
      obtain ⟨b2, e2, caps⟩ := m
      have hmem : (e2, caps) ∈ reMatch (pyLower text) p b2 [] :=
        searchFromAux_sound (pyLower text) p _ _ _ _ _ hm
      have hp_mem : p ∈ account_patterns := by
        rw [heq]
        exact List.mem_append_right pre (List.mem_cons_self p post)
      obtain ⟨bb, hcap, h3, h4, hble, hchars⟩ := acct_cap_shape (pyLower text) p hp_mem hmem
      have hl4 : l4 = sliceStr (pyLower text) bb e2 := by
        unfold pyGroupStr at hg
        rw [hcap] at hg
        rw [Option.map_some', Option.some.injEq] at hg
        exact hg.symm
      obtain ⟨hlen, hdig⟩ := sliceStr_shape (pyLower text) bb e2 hble hchars
      refine ⟨l4, h.symm, ?_, ?_, pre, p, post, heq, hnone, (b2, e2, caps), hm⟩
      · rw [hl4, hlen]
        omega
      · rw [hl4]
        exact hdig

theorem claim_C8_witness :
    ∃ ds, "****1234".toList = "****".toList ++ ds ∧
      (ds.length = 3 ∨ ds.length = 4) ∧ ds.all Char.isDigit = true ∧
      ∃ pre p post, account_patterns = pre ++ p :: post ∧
        (∀ q ∈ pre, pySearch q (pyLower "account ending in 1234".toList) = none) ∧
        ∃ m, pySearch p (pyLower "account ending in 1234".toList) = some m :=
  claim_C8 "account ending in 1234".toList "****1234".toList (by decide)

end PF
